import Mathlib

/-!
Verification development for the quiche-based HTTP/3 transport adapter
(src/lib/vquic/quiche.c). The C code is shallowly embedded: bytes are
modelled as Nat (one Nat per C char), buffers as List Nat, and the
external quiche engine and the socket are modelled as oracles passed in
as parameters. Every definition mirrors the corresponding C function.
-/

/-- Byte value of carriage return. -/
def CRb : Nat := 13

/-- Byte value of line feed. -/
def LFb : Nat := 10

/-- Byte value of space. -/
def SPb : Nat := 32

/-- Byte value of horizontal tab. -/
def TABb : Nat := 9

/-- Byte value of colon. -/
def COLONb : Nat := 58

/-- Bytes of the pseudo-header name ":method". -/
def methodB : List Nat := [58, 109, 101, 116, 104, 111, 100]

/-- Bytes of the pseudo-header name ":path". -/
def pathB : List Nat := [58, 112, 97, 116, 104]

/-- Bytes of the pseudo-header name ":scheme". -/
def schemeB : List Nat := [58, 115, 99, 104, 101, 109, 101]

/-- Bytes of the pseudo-header name ":authority". -/
def authorityB : List Nat := [58, 97, 117, 116, 104, 111, 114, 105, 116, 121]

/-- Bytes of the scheme value "https". -/
def httpsB : List Nat := [104, 116, 116, 112, 115]

/-- Bytes of the scheme value "http". -/
def httpB : List Nat := [104, 116, 116, 112]

/-- Bytes of the lowercase header name "host". -/
def hostB : List Nat := [104, 111, 115, 116]

/-- Whether byte c occurs in the list (helper for stating well-formedness). -/
def hasByte (c : Nat) : List Nat → Bool
  | [] => false
  | b :: rest => b == c || hasByte c rest

/-- Index of the first occurrence of byte c, mirroring memchr in the C code. -/
def firstIdx (c : Nat) : List Nat → Option Nat
  | [] => none
  | b :: rest => if b = c then some 0 else (firstIdx c rest).map (· + 1)

/-- Index of the last occurrence of byte c, mirroring the backward scan the C
code uses to find the last space of the request line. -/
def lastIdxOf (c : Nat) : List Nat → Option Nat
  | [] => none
  | b :: rest =>
    match lastIdxOf c rest with
    | some j => some (j + 1)
    | none => if b = c then some 0 else none

/-- Embeds the header-counting loop of http_request (quiche.c lines 393-399):
scanning with index i from 1, a CRLF at positions i-1,i increments the count
and additionally advances i, skipping one byte. The first argument is the
byte at position i-1. -/
def countAux : Nat → List Nat → Nat
  | _, [] => 0
  | p, b :: rest =>
    if p = CRb ∧ b = LFb then
      1 + (match rest with
           | [] => 0
           | c :: rest2 => countAux c rest2)
    else
      countAux b rest

/-- Number of CRLF-terminated lines counted by http_request over the buffer. -/
def countHeaders : List Nat → Nat
  | [] => 0
  | b :: rest => countAux b rest

/-- A name/value pair with byte content, modelling quiche_h3_header: the name
and value are byte ranges whose lengths are the list lengths. -/
structure HeaderEntry where
  name : List Nat
  value : List Nat
deriving DecidableEq, Repr

/-- ASCII lowercasing of one byte, as used by strncasecompare. -/
def toLowerB (b : Nat) : Nat := if 65 ≤ b ∧ b ≤ 90 then b + 32 else b

/-- Case-insensitive comparison with "host", modelling
strncasecompare("host", hdbuf, 4) on a 4-byte name. -/
def caseEqHost (nm : List Nat) : Bool := nm.map toLowerB == hostB

/-- Translation failure, the goto-fail path of http_request; the C code
returns CURLE_SEND_ERROR there (the MalformedRequest condition of the spec).
The fail label frees the partially built header array, so no header list
escapes this path. -/
inductive HErr where
  | malformedRequest
deriving DecidableEq, Repr

/-- The header entry the per-line parsing of http_request (lines 454-509)
produces for one well-formed header line: name up to the first colon, renamed
":authority" when it case-insensitively equals "host"; value after the colon
with leading spaces and tabs dropped. Used to state theorems; the executable
loop below is proved to produce exactly these entries. -/
def lineEntry (h : List Nat) : HeaderEntry :=
  match firstIdx COLONb h with
  | none => ⟨[], []⟩
  | some ci =>
    ⟨if (ci == 4) && caseEqHost (h.take ci) then authorityB else h.take ci,
     (h.drop (ci + 1)).dropWhile (fun b => b == SPb || b == TABb)⟩

/-- Whether a header line is a host header (renamed to ":authority"). -/
def lineIsHost (h : List Nat) : Bool :=
  match firstIdx COLONb h with
  | none => false
  | some ci => (ci == 4) && caseEqHost (h.take ci)

/-- Position (in translated-list coordinates, starting at i) of the last host
header among the lines, or 0 when none occurs: the value the authority_idx
variable of http_request holds after the parsing loop. -/
def lastHostIdx : List (List Nat) → Nat → Nat
  | [], _ => 0
  | h :: t, i =>
    let r := lastHostIdx t (i + 1)
    if r ≠ 0 then r else if lineIsHost h then i else 0

/-- Embeds the header parsing loop of http_request (lines 452-509). The
suffix argument is the buffer from the current line_end (the CR byte that
ended the previous line); each iteration advances hdbuf to line_end + 2,
finds the next CR, rejects empty and continuation lines, splits at the first
colon, renames host to ":authority" recording its position, and trims leading
whitespace from the value. Returns the entries from position i on, together
with the final authority_idx. -/
def parseLoop : Nat → Nat → List Nat → Except HErr (List HeaderEntry × Nat)
  | 0, _, _ => Except.ok ([], 0)
  | rem + 1, i, suffix =>
    let hdbuf := suffix.drop 2
    match firstIdx CRb hdbuf with
    | none => Except.error HErr.malformedRequest
    | some k =>
      if k = 0 then Except.error HErr.malformedRequest
      else if hdbuf.headD 0 = SPb ∨ hdbuf.headD 0 = TABb then
        Except.error HErr.malformedRequest
      else
        match firstIdx COLONb (hdbuf.take k) with
        | none => Except.error HErr.malformedRequest
        | some ci =>
          if ci = 0 then Except.error HErr.malformedRequest
          else
            match parseLoop rem (i + 1) (hdbuf.drop k) with
            | Except.error e => Except.error e
            | Except.ok (es, a) =>
              Except.ok
                (⟨if (ci == 4) && caseEqHost ((hdbuf.take k).take ci) then
                    authorityB
                  else (hdbuf.take k).take ci,
                  ((hdbuf.take k).drop (ci + 1)).dropWhile
                    (fun b => b == SPb || b == TABb)⟩ :: es,
                 if a ≠ 0 then a
                 else if (ci == 4) && caseEqHost ((hdbuf.take k).take ci) then i
                 else 0)

/-- Embeds the authority rotation of http_request (lines 511-518): the entry
at index k is moved to index 3 and the entries at indices 3 through k-1 are
shifted up by one slot. -/
def rotateAuthority (nva : List HeaderEntry) (k : Nat) : List HeaderEntry :=
  nva.take 3 ++ nva.getD k ⟨[], []⟩ :: (nva.drop 3).eraseIdx (k - 3)

/-- Embeds the header translation part of http_request (lines 391-518):
counts CRLF lines (fails below 2), extracts :method as the bytes before the
first space of the first line and :path as the bytes from there to the last
space of the first line, synthesizes :scheme from the encryption flag, parses
the remaining lines, and rotates :authority to index 3 when it was found
elsewhere. Also returns the final authority_idx. -/
def translateHeaders (ssl : Bool) (mem : List Nat) :
    Except HErr (List HeaderEntry × Nat) :=
  let nh0 := countHeaders mem
  if nh0 < 2 then Except.error HErr.malformedRequest
  else
    let nheader := nh0 + 1
    match firstIdx CRb mem with
    | none => Except.error HErr.malformedRequest
    | some le =>
      let line1 := mem.take le
      match firstIdx SPb line1 with
      | none => Except.error HErr.malformedRequest
      | some m =>
        if m = 0 then Except.error HErr.malformedRequest
        else
          let method := line1.take m
          let rest1 := line1.drop (m + 1)
          match lastIdxOf SPb rest1 with
          | none => Except.error HErr.malformedRequest
          | some j =>
            if j = 0 then Except.error HErr.malformedRequest
            else
              let path := rest1.take j
              let scheme := if ssl then httpsB else httpB
              match parseLoop (nheader - 3) 3 (mem.drop le) with
              | Except.error e => Except.error e
              | Except.ok (es, aidx) =>
                let nva := ⟨methodB, method⟩ :: ⟨pathB, path⟩ ::
                  ⟨schemeB, scheme⟩ :: es
                if aidx ≠ 0 ∧ aidx ≠ 3 then
                  Except.ok (rotateAuthority nva aidx, aidx)
                else Except.ok (nva, aidx)

/-- Cumulative byte length of all names plus values, the acc accumulator of
http_request (lines 523-532). -/
def cumLen (entries : List HeaderEntry) : Nat :=
  entries.foldl (fun acc e => acc + (e.name.length + e.value.length)) 0

/-- The request kinds of the switch in http_request (lines 541-558),
modelling the relevant constructors of curl Curl_HttpReq. -/
inductive HttpReq where
  | HTTPREQ_GET
  | HTTPREQ_HEAD
  | HTTPREQ_POST
  | HTTPREQ_POST_FORM
  | HTTPREQ_POST_MIME
  | HTTPREQ_PUT
deriving DecidableEq, Repr

/-- The upload methods: the cases of the switch that share the upload branch. -/
def isUploadMethod : HttpReq → Bool
  | HttpReq.HTTPREQ_POST => true
  | HttpReq.HTTPREQ_POST_FORM => true
  | HttpReq.HTTPREQ_POST_MIME => true
  | HttpReq.HTTPREQ_PUT => true
  | _ => false

/-- Observable outcome of the request-driver tail of http_request (lines
520-571): the translated entries, whether the size warning fired, whether
quiche_h3_send_request was called, the upload_left counter when set, whether
the stream3_id variable was read while still unassigned (the upload branch
never assigns it before the read at line 562), and the stream id recorded. -/
structure ReqOutcome where
  entries : List HeaderEntry
  warned : Bool
  submitted : Bool
  uploadLeft : Option Int
  readsUninitStreamId : Bool
  streamId : Option Int
deriving DecidableEq, Repr

/-- Embeds the tail of http_request after translation: the size warning
(emitted when acc exceeds 60000) and the method switch. Upload methods set
upload_left from infilesize (-1 meaning no declared length) and fall through
without calling quiche_h3_send_request, so stream3_id is still unassigned
when line 562 reads it. Other methods submit the list and obtain the
engine-assigned stream id sid. -/
def finishRequest (entries : List HeaderEntry) (httpreq : HttpReq)
    (infilesize : Int) (sid : Int) : ReqOutcome :=
  let warned := decide (cumLen entries > 60000)
  if isUploadMethod httpreq then
    ⟨entries, warned, false,
     some (if infilesize ≠ -1 then infilesize else -1), true, none⟩
  else
    ⟨entries, warned, true, none, false, some sid⟩

/-- Embeds http_request (lines 369-576) end to end: translation followed by
the warning and submission stage. The fail label is the error case. -/
def http_request (ssl : Bool) (httpreq : HttpReq) (infilesize : Int)
    (sid : Int) (mem : List Nat) : Except HErr ReqOutcome :=
  match translateHeaders ssl mem with
  | Except.error e => Except.error e
  | Except.ok (es, _) => Except.ok (finishRequest es httpreq infilesize sid)

/-- The request line of a header block: the bytes before the first CR
(the whole buffer if no CR occurs). -/
def firstLine (mem : List Nat) : List Nat :=
  match firstIdx CRb mem with
  | none => mem
  | some le => mem.take le

/-- The bytes before the first space of the request line: what the claim
calls the method. -/
def reqMethod (req : List Nat) : List Nat :=
  match firstIdx SPb req with
  | none => []
  | some m => req.take m

/-- The bytes strictly between the first space and the last space of the
request line: what the claim calls the path. -/
def reqPath (req : List Nat) : List Nat :=
  match firstIdx SPb req with
  | none => []
  | some m =>
    match lastIdxOf SPb (req.drop (m + 1)) with
    | none => []
    | some j => (req.drop (m + 1)).take j

/-- One header line followed by its CRLF terminator, concatenated: the body
of a header block after the request line and before the final empty line. -/
def lineJoin : List (List Nat) → List Nat
  | [] => []
  | h :: t => h ++ CRb :: LFb :: lineJoin t

/-- A header block in the shape the claims quantify over: a request line,
then the header lines, each line CRLF-terminated, then the terminating empty
CRLF line. -/
def mkBlock (req : List Nat) (hdrs : List (List Nat)) : List Nat :=
  req ++ CRb :: LFb :: (lineJoin hdrs ++ [CRb, LFb])

/-- Well-formed request line: free of CR and LF, with a nonempty method
before its first space and a nonempty path before its last space. -/
def goodReqB (req : List Nat) : Bool :=
  !(hasByte CRb req) && !(hasByte LFb req) &&
  (match firstIdx SPb req with
   | none => false
   | some m =>
     !(m == 0) &&
     (match lastIdxOf SPb (req.drop (m + 1)) with
      | none => false
      | some j => !(j == 0)))

/-- Well-formed regular header line: free of CR and LF, containing a colon
with a nonempty name before it, and not starting with space or tab. -/
def goodHdrB (h : List Nat) : Bool :=
  !(hasByte CRb h) && !(hasByte LFb h) &&
  (match firstIdx COLONb h with
   | none => false
   | some ci => !(ci == 0)) &&
  (match h with
   | [] => false
   | c :: _ => !(c == SPb) && !(c == TABb))

/-- Observable actions of the recv/send adapter entry points, used to state
in which order the datagram pumps run relative to the main work. -/
inductive PumpAct where
  | ingress
  | egress
  | streamRecv
  | poll
  | httpReq
  | streamSend
deriving DecidableEq, Repr

/-- Result of h3_stream_recv as seen by the caller: a fatal receive error
(CURLE_RECV_ERROR with -1), the would-block condition (CURLE_AGAIN with -1),
or CURLE_OK together with the returned byte count. -/
inductive RecvRes where
  | recvError
  | again
  | okBytes (n : Int)
deriving DecidableEq, Repr

/-- An HTTP/3 event as yielded by quiche_h3_conn_poll: a headers event, a
data event (carrying the result quiche_h3_recv_body returns for it), or a
finished event. -/
inductive H3Ev where
  | headersEv
  | dataEv (bodyRes : Int)
  | finishedEv
deriving DecidableEq, Repr

/-- Embeds the event poll loop of h3_stream_recv (lines 285-315): the recvd
variable starts at the direct stream-read result and is overwritten by the
body-read result of every data event, including non-positive ones; headers
and finished events leave it unchanged. -/
def pollLoop (recvd : Int) : List H3Ev → Int
  | [] => recvd
  | H3Ev.headersEv :: rest => pollLoop recvd rest
  | H3Ev.dataEv r :: rest => pollLoop r rest
  | H3Ev.finishedEv :: rest => pollLoop recvd rest

/-- The body-read result of the last data event of the list, if any. -/
def lastData : List H3Ev → Option Int
  | [] => none
  | H3Ev.dataEv r :: rest => some ((lastData rest).getD r)
  | _ :: rest => lastData rest

/-- Embeds h3_stream_recv (lines 258-319). Oracles: ingressOk is whether
process_ingress succeeds; direct is the quiche_conn_stream_recv result
(none for QUICHE_ERR_DONE); events are the HTTP/3 events the engine yields
this invocation (the empty list when no HTTP/3 context exists yet, since
nothing has been submitted). Returns the caller-visible result with the list
of actions in execution order; note that no egress pump ever runs here. -/
def h3_stream_recv (ingressOk : Bool) (direct : Option Int)
    (events : List H3Ev) : RecvRes × List PumpAct :=
  if ingressOk = false then (RecvRes.recvError, [PumpAct.ingress])
  else
    match direct with
    | none => (RecvRes.again, [PumpAct.ingress, PumpAct.streamRecv])
    | some r =>
      (RecvRes.okBytes (pollLoop r events),
       [PumpAct.ingress, PumpAct.streamRecv, PumpAct.poll])

/-- Result of h3_stream_send as seen by the caller: CURLE_SEND_ERROR with
-1, or CURLE_OK with the returned byte count. -/
inductive SendRes where
  | sendError
  | okBytes (n : Int)
deriving DecidableEq, Repr

/-- Outcome of h3_stream_send: the caller-visible result, the actions in
execution order, and the transport-level stream writes performed, each
recorded as stream id, byte count, fin flag. -/
structure SendOut where
  result : SendRes
  acts : List PumpAct
  writes : List (Nat × Nat × Bool)
deriving DecidableEq, Repr

/-- Embeds h3_stream_send (lines 321-354). When no HTTP/3 context exists
yet, it calls http_request on the buffer and returns the full length at once
without reaching the flush_egress call at line 347. Otherwise it writes the
buffer to stream 0 via quiche_conn_stream_send with fin set to true
(streamSendRes is the engine result), then flushes egress (egressOk is
whether that succeeds) and returns the engine byte count. -/
def h3_stream_send (ssl : Bool) (httpreq : HttpReq) (infilesize sid : Int)
    (h3cExists : Bool) (mem : List Nat) (streamSendRes : Int)
    (egressOk : Bool) : SendOut :=
  if h3cExists = false then
    match http_request ssl httpreq infilesize sid mem with
    | Except.error _ => ⟨SendRes.sendError, [PumpAct.httpReq], []⟩
    | Except.ok _ => ⟨SendRes.okBytes (mem.length : Int), [PumpAct.httpReq], []⟩
  else
    if streamSendRes < 0 then
      ⟨SendRes.sendError, [PumpAct.streamSend],
       [(0, mem.length, true)]⟩
    else if egressOk = false then
      ⟨SendRes.sendError, [PumpAct.streamSend, PumpAct.egress],
       [(0, mem.length, true)]⟩
    else
      ⟨SendRes.okBytes streamSendRes, [PumpAct.streamSend, PumpAct.egress],
       [(0, mem.length, true)]⟩

/-- What the socket yields to one recv call of process_ingress: a datagram,
the would-block condition (EAGAIN or EWOULDBLOCK), or another socket error. -/
inductive SockEv where
  | dgram (d : List Nat)
  | wouldBlock
  | sockErr
deriving DecidableEq, Repr

/-- What quiche_conn_recv reports for one fed datagram: a nonnegative
consumed size, QUICHE_ERR_DONE, or another negative result. -/
inductive EngRecvRes where
  | engOk
  | engDone
  | engErr
deriving DecidableEq, Repr

/-- Embeds process_ingress (lines 197-224). The socket is modelled as the
list of successive recv results; the engine as an oracle giving its response
to the j-th datagram fed to quiche_conn_recv. Returns whether the call
succeeds (CURLE_OK versus CURLE_RECV_ERROR) together with the datagrams fed
to the engine, in order. Would-block and QUICHE_ERR_DONE break the drain
loop without error; any other socket or engine failure aborts with a receive
failure. An exhausted event list stands for a socket with nothing further
to report and behaves like would-block. -/
def process_ingress (eng : Nat → EngRecvRes) :
    Nat → List SockEv → Bool × List (List Nat)
  | _, [] => (true, [])
  | _, SockEv.wouldBlock :: _ => (true, [])
  | _, SockEv.sockErr :: _ => (false, [])
  | j, SockEv.dgram d :: rest =>
    match eng j with
    | EngRecvRes.engDone => (true, [d])
    | EngRecvRes.engErr => (false, [d])
    | EngRecvRes.engOk =>
      let r := process_ingress eng (j + 1) rest
      (r.1, d :: r.2)

lemma hasByte_cons (c b : Nat) (l : List Nat) :
    hasByte c (b :: l) = false ↔ b ≠ c ∧ hasByte c l = false := by
  simp [hasByte]

lemma firstIdx_append_of_notIn (c : Nat) (l rest : List Nat)
    (hl : hasByte c l = false) : firstIdx c (l ++ c :: rest) = some l.length := by
  induction l with
  | nil => simp [firstIdx]
  | cons b t ih =>
    rcases (hasByte_cons c b t).mp hl with ⟨hb, ht⟩
    rw [List.cons_append]
    simp only [firstIdx, if_neg hb, List.append_eq, ih ht, Option.map_some',
      List.length_cons]

lemma countAux_match_eq (rest : List Nat) :
    (match rest with
     | [] => 0
     | c :: rest2 => countAux c rest2) = countHeaders rest := by
  cases rest <;> rfl

lemma countAux_CRLF (rest : List Nat) :
    countAux CRb (LFb :: rest) = 1 + countHeaders rest := by
  rw [countAux.eq_def]
  simp [countAux_match_eq]

lemma countAux_append (p : Nat) (l rest : List Nat)
    (hl : hasByte LFb l = false) :
    countAux p (l ++ CRb :: LFb :: rest) = 1 + countHeaders rest := by
  induction l generalizing p with
  | nil =>
    have h1 : ¬(p = CRb ∧ CRb = LFb) := by rintro ⟨-, h⟩; exact absurd h (by decide)
    rw [List.nil_append, countAux.eq_def]
    simp only [if_neg h1]
    exact countAux_CRLF rest
  | cons b t ih =>
    rcases (hasByte_cons LFb b t).mp hl with ⟨hb, ht⟩
    have hguard : ¬(p = CRb ∧ b = LFb) := by rintro ⟨-, h⟩; exact hb h
    rw [List.cons_append, countAux.eq_def]
    simp only [if_neg hguard]
    exact ih b ht

lemma countHeaders_append (l rest : List Nat) (hl : hasByte LFb l = false) :
    countHeaders (l ++ CRb :: LFb :: rest) = 1 + countHeaders rest := by
  cases l with
  | nil =>
    rw [List.nil_append]
    show countAux CRb (LFb :: rest) = 1 + countHeaders rest
    exact countAux_CRLF rest
  | cons b t =>
    rcases (hasByte_cons LFb b t).mp hl with ⟨-, ht⟩
    exact countAux_append b t rest ht

lemma countHeaders_lineJoin (hdrs : List (List Nat))
    (hh : ∀ h ∈ hdrs, hasByte LFb h = false) :
    countHeaders (lineJoin hdrs ++ [CRb, LFb]) = hdrs.length + 1 := by
  induction hdrs with
  | nil => decide
  | cons h t ih =>
    have hshape : lineJoin (h :: t) ++ [CRb, LFb] =
        h ++ CRb :: LFb :: (lineJoin t ++ [CRb, LFb]) := by
      simp [lineJoin]
    rw [hshape, countHeaders_append h _ (hh h (by simp)),
      ih (fun g hg => hh g (by simp [hg]))]
    simp only [List.length_cons]
    omega

lemma countHeaders_mkBlock (req : List Nat) (hdrs : List (List Nat))
    (hreq : hasByte LFb req = false)
    (hh : ∀ h ∈ hdrs, hasByte LFb h = false) :
    countHeaders (mkBlock req hdrs) = hdrs.length + 2 := by
  unfold mkBlock
  rw [countHeaders_append req _ hreq, countHeaders_lineJoin hdrs hh]
  omega

lemma goodHdrB_spec (h : List Nat) (hg : goodHdrB h = true) :
    hasByte CRb h = false ∧ hasByte LFb h = false ∧
    (∃ ci, firstIdx COLONb h = some ci ∧ ci ≠ 0) ∧
    ∃ c t, h = c :: t ∧ c ≠ SPb ∧ c ≠ TABb := by
  unfold goodHdrB at hg
  split at hg
  · simp at hg
  · next ci hfi =>
    split at hg
    · simp at hg
    · next c t =>
      simp only [Bool.and_eq_true, Bool.not_eq_true', beq_eq_false_iff_ne] at hg
      exact ⟨hg.1.1.1, hg.1.1.2, ⟨ci, hfi, by simpa using hg.1.2⟩,
        c, t, rfl, hg.2.1, hg.2.2⟩

lemma goodReqB_spec (req : List Nat) (hg : goodReqB req = true) :
    hasByte CRb req = false ∧ hasByte LFb req = false ∧
    ∃ m, firstIdx SPb req = some m ∧ m ≠ 0 ∧
      ∃ j, lastIdxOf SPb (req.drop (m + 1)) = some j ∧ j ≠ 0 := by
  unfold goodReqB at hg
  split at hg
  · simp at hg
  · next m hm =>
    split at hg
    · simp at hg
    · next j hj =>
      simp only [Bool.and_eq_true, Bool.not_eq_true', beq_eq_false_iff_ne] at hg
      exact ⟨hg.1.1, hg.1.2, m, hm, by simpa using hg.2.1, j, hj,
        by simpa using hg.2.2⟩

lemma lastHostIdx_cons (h : List Nat) (t : List (List Nat)) (i : Nat) :
    lastHostIdx (h :: t) i =
      if lastHostIdx t (i + 1) ≠ 0 then lastHostIdx t (i + 1)
      else if lineIsHost h then i else 0 := rfl

lemma lastHostIdx_bound (hdrs : List (List Nat)) (i : Nat) :
    lastHostIdx hdrs i = 0 ∨
    (i ≤ lastHostIdx hdrs i ∧ lastHostIdx hdrs i < i + hdrs.length) := by
  induction hdrs generalizing i with
  | nil => exact Or.inl rfl
  | cons h t ih =>
    rw [lastHostIdx_cons]
    simp only [List.length_cons]
    rcases ih (i + 1) with hz | ⟨hle, hlt⟩
    · rw [hz, if_neg (by simp)]
      by_cases hh : lineIsHost h
      · rw [if_pos hh]
        right
        omega
      · rw [if_neg hh]
        exact Or.inl rfl
    · have hnz : lastHostIdx t (i + 1) ≠ 0 := by omega
      rw [if_pos hnz]
      right
      omega

lemma lastHostIdx_host (hdrs : List (List Nat)) (i : Nat)
    (hnz : lastHostIdx hdrs i ≠ 0) :
    ∃ h, hdrs[lastHostIdx hdrs i - i]? = some h ∧ lineIsHost h = true := by
  induction hdrs generalizing i with
  | nil => exact absurd rfl hnz
  | cons g t ih =>
    rw [lastHostIdx_cons] at hnz ⊢
    by_cases hr : lastHostIdx t (i + 1) ≠ 0
    · rw [if_pos hr]
      rcases ih (i + 1) hr with ⟨h, hget, hhost⟩
      refine ⟨h, ?_, hhost⟩
      rcases lastHostIdx_bound t (i + 1) with hz | ⟨hle, -⟩
      · exact absurd hz hr
      · have harith : lastHostIdx t (i + 1) - i =
            (lastHostIdx t (i + 1) - (i + 1)) + 1 := by omega
        rw [harith]
        simpa using hget
    · rw [if_neg hr] at hnz ⊢
      by_cases hh : lineIsHost g
      · rw [if_pos hh]
        exact ⟨g, by simp, hh⟩
      · rw [if_neg hh] at hnz
        exact absurd rfl hnz

lemma parseLoop_zero (i : Nat) (s : List Nat) :
    parseLoop 0 i s = Except.ok ([], 0) := rfl

lemma parseLoop_goodRun (gs : List (List Nat)) (rem i : Nat) (rest : List Nat)
    (hg : ∀ h ∈ gs, goodHdrB h = true) :
    parseLoop (gs.length + rem) i (CRb :: LFb :: (lineJoin gs ++ rest)) =
      match parseLoop rem (i + gs.length) (CRb :: LFb :: rest) with
      | Except.error e => Except.error e
      | Except.ok (es, a) =>
        Except.ok (gs.map lineEntry ++ es,
          if a ≠ 0 then a else lastHostIdx gs i) := by
  induction gs generalizing i with
  | nil =>
    simp only [List.length_nil, Nat.zero_add, lineJoin, List.nil_append,
      List.map_nil, Nat.add_zero]
    rcases hres : parseLoop rem i (CRb :: LFb :: rest) with e | ⟨es, a⟩
    · rfl
    · by_cases ha : a = 0
      · simp [ha, lastHostIdx]
      · simp [ha]
  | cons g t ih =>
    obtain ⟨hCR, hLF, ⟨ci, hci, hci0⟩, c, tl, hgct, hcSP, hcTAB⟩ :=
      goodHdrB_spec g (hg g (by simp))
    have hlen : (g :: t).length + rem = (t.length + rem) + 1 := by
      simp only [List.length_cons]; omega
    have hbuf : lineJoin (g :: t) ++ rest =
        g ++ CRb :: (LFb :: (lineJoin t ++ rest)) := by
      simp [lineJoin]
    rw [hlen, hbuf, parseLoop.eq_def]
    simp only [List.drop_succ_cons, List.drop_zero]
    have hfidx : firstIdx CRb (g ++ CRb :: (LFb :: (lineJoin t ++ rest))) =
        some g.length := firstIdx_append_of_notIn CRb g _ hCR
    have hglen : g.length ≠ 0 := by rw [hgct]; simp
    have hhead : (g ++ CRb :: (LFb :: (lineJoin t ++ rest))).headD 0 = c := by
      rw [hgct]; rfl
    have hnotws : ¬(c = SPb ∨ c = TABb) := by
      rintro (h | h)
      · exact hcSP h
      · exact hcTAB h
    simp only [hfidx, if_neg hglen, hhead, if_neg hnotws, List.take_left,
      hci, if_neg hci0, List.drop_left]
    rw [ih (i + 1) (fun h hh => hg h (by simp [hh]))]
    have hidx : i + (g :: t).length = (i + 1) + t.length := by
      simp only [List.length_cons]; omega
    rw [hidx]
    rcases hres : parseLoop rem ((i + 1) + t.length) (CRb :: LFb :: rest)
      with e | ⟨es, a⟩
    · rfl
    · simp only [List.map_cons, List.cons_append]
      have hhst : lineIsHost g = ((ci == 4) && caseEqHost (g.take ci)) := by
        simp [lineIsHost, hci]
      rw [lastHostIdx_cons]
      by_cases ha : a = 0
      · by_cases hr : lastHostIdx t (i + 1) = 0
        · by_cases hhost : (ci == 4) && caseEqHost (g.take ci)
          · simp [ha, hr, hhost, hhst, lineEntry, hci]
          · simp [ha, hr, hhost, hhst, lineEntry, hci]
        · simp [ha, hr, hhst, lineEntry, hci]
      · simp [ha, lineEntry, hci]

lemma parseLoop_full (hdrs : List (List Nat)) (i : Nat)
    (hg : ∀ h ∈ hdrs, goodHdrB h = true) :
    parseLoop hdrs.length i (CRb :: LFb :: (lineJoin hdrs ++ [CRb, LFb])) =
      Except.ok (hdrs.map lineEntry, lastHostIdx hdrs i) := by
  have h := parseLoop_goodRun hdrs 0 i [CRb, LFb] hg
  rw [Nat.add_zero] at h
  rw [h, parseLoop_zero]
  simp

lemma parseLoop_contFail (rem i : Nat) (suffix : List Nat)
    (h : (suffix.drop 2).headD 0 = SPb ∨ (suffix.drop 2).headD 0 = TABb) :
    parseLoop (rem + 1) i suffix = Except.error HErr.malformedRequest := by
  rw [parseLoop.eq_def]
  rcases hfi : firstIdx CRb (suffix.drop 2) with - | k
  · simp [hfi]
  · simp only [hfi]
    by_cases hk : k = 0
    · rw [if_pos hk]
    · rw [if_neg hk, if_pos h]

/-- The pre-rotation translated list of a well-formed header block: the three
synthesized pseudo-headers followed by the per-line entries in source order.
Helper for stating the claims; the main lemma below proves the translation
produces exactly this list, rotated when a host header sits past index 3. -/
def preList (ssl : Bool) (req : List Nat) (hdrs : List (List Nat)) :
    List HeaderEntry :=
  ⟨methodB, reqMethod req⟩ :: ⟨pathB, reqPath req⟩ ::
  ⟨schemeB, if ssl then httpsB else httpB⟩ :: hdrs.map lineEntry

lemma translateHeaders_mkBlock (ssl : Bool) (req : List Nat)
    (hdrs : List (List Nat)) (hreq : goodReqB req = true)
    (hh : ∀ h ∈ hdrs, goodHdrB h = true) :
    translateHeaders ssl (mkBlock req hdrs) =
      if lastHostIdx hdrs 3 ≠ 0 ∧ lastHostIdx hdrs 3 ≠ 3 then
        Except.ok (rotateAuthority (preList ssl req hdrs) (lastHostIdx hdrs 3),
          lastHostIdx hdrs 3)
      else Except.ok (preList ssl req hdrs, lastHostIdx hdrs 3) := by
  obtain ⟨hCR, hLF, m, hm, hm0, j, hj, hj0⟩ := goodReqB_spec req hreq
  have hhLF : ∀ h ∈ hdrs, hasByte LFb h = false :=
    fun h hmem => (goodHdrB_spec h (hh h hmem)).2.1
  have hcount : countHeaders (mkBlock req hdrs) = hdrs.length + 2 :=
    countHeaders_mkBlock req hdrs hLF hhLF
  have hfirst : firstIdx CRb (mkBlock req hdrs) = some req.length := by
    unfold mkBlock
    exact firstIdx_append_of_notIn CRb req _ hCR
  have htake : (mkBlock req hdrs).take req.length = req := by
    unfold mkBlock
    exact List.take_left req _
  have hdrop : (mkBlock req hdrs).drop req.length =
      CRb :: LFb :: (lineJoin hdrs ++ [CRb, LFb]) := by
    unfold mkBlock
    exact List.drop_left req _
  unfold translateHeaders
  simp only [hcount, hfirst, htake, hdrop, hm, hj]
  rw [if_neg (show ¬hdrs.length + 2 < 2 from by omega), if_neg hm0, if_neg hj0]
  rw [show hdrs.length + 2 + 1 - 3 = hdrs.length from by omega]
  rw [parseLoop_full hdrs 3 hh]
  simp only [preList, reqMethod, reqPath, hm, hj]

lemma getD_eraseIdx_lt (l : List HeaderEntry) (n m : Nat) (d : HeaderEntry)
    (h : m < n) : (l.eraseIdx n).getD m d = l.getD m d := by
  induction l generalizing n m with
  | nil => simp [List.eraseIdx]
  | cons a t ih =>
    cases n with
    | zero => omega
    | succ n =>
      cases m with
      | zero => rfl
      | succ m =>
        show (t.eraseIdx n).getD m d = t.getD m d
        exact ih n m (by omega)

lemma getD_eraseIdx_ge (l : List HeaderEntry) (n m : Nat) (d : HeaderEntry)
    (h : n ≤ m) : (l.eraseIdx n).getD m d = l.getD (m + 1) d := by
  induction l generalizing n m with
  | nil => simp [List.eraseIdx]
  | cons a t ih =>
    cases n with
    | zero => rfl
    | succ n =>
      cases m with
      | zero => omega
      | succ m =>
        show (t.eraseIdx n).getD m d = t.getD (m + 1) d
        exact ih n m (by omega)

lemma rotateAuthority_core (p0 p1 p2 : HeaderEntry) (es : List HeaderEntry)
    (k : Nat) :
    rotateAuthority (p0 :: p1 :: p2 :: es) k =
      p0 :: p1 :: p2 :: (p0 :: p1 :: p2 :: es).getD k ⟨[], []⟩ ::
        es.eraseIdx (k - 3) := by
  unfold rotateAuthority
  rfl

lemma rotateAuthority_length (p0 p1 p2 : HeaderEntry) (es : List HeaderEntry)
    (k : Nat) (hlt : k - 3 < es.length) :
    (rotateAuthority (p0 :: p1 :: p2 :: es) k).length = es.length + 3 := by
  rw [rotateAuthority_core p0 p1 p2 es k]
  simp only [List.length_cons, List.length_eraseIdx, if_pos hlt]
  omega

lemma pollLoop_eq (r : Int) (evs : List H3Ev) :
    pollLoop r evs = (lastData evs).getD r := by
  induction evs generalizing r with
  | nil => rfl
  | cons e t ih => cases e <;> simp [pollLoop, lastData, ih]

lemma process_ingress_okRun (eng : Nat → EngRecvRes) (j : Nat)
    (ds : List (List Nat)) (tail : List SockEv)
    (h : ∀ t, t < ds.length → eng (j + t) = EngRecvRes.engOk) :
    process_ingress eng j (ds.map SockEv.dgram ++ tail) =
      ((process_ingress eng (j + ds.length) tail).1,
       ds ++ (process_ingress eng (j + ds.length) tail).2) := by
  induction ds generalizing j with
  | nil => simp
  | cons d t ih =>
    have h0 : eng j = EngRecvRes.engOk := by
      have := h 0 (by simp)
      simpa using this
    simp only [List.map_cons, List.cons_append]
    rw [process_ingress.eq_def]
    simp only [h0]
    have ht : ∀ s, s < t.length → eng ((j + 1) + s) = EngRecvRes.engOk := by
      intro s hs
      have := h (s + 1) (by simp; omega)
      rwa [show j + (s + 1) = (j + 1) + s from by omega] at this
    rw [ih (j + 1) ht]
    simp only [List.length_cons]
    rw [show j + (t.length + 1) = (j + 1) + t.length from by omega]

lemma getD_cons3 (p0 p1 p2 : HeaderEntry) (es : List HeaderEntry) (m : Nat)
    (d : HeaderEntry) : (p0 :: p1 :: p2 :: es).getD (m + 3) d = es.getD m d :=
  rfl

lemma getD_cons4 (p0 p1 p2 p3 : HeaderEntry) (es : List HeaderEntry) (m : Nat)
    (d : HeaderEntry) :
    (p0 :: p1 :: p2 :: p3 :: es).getD (m + 4) d = es.getD m d := rfl

lemma lineEntry_host_name (h : List Nat) (hh : lineIsHost h = true) :
    (lineEntry h).name = authorityB := by
  unfold lineIsHost at hh
  unfold lineEntry
  split at hh
  · simp at hh
  · next ci hfi =>
    simp [hh]

/-- C1: for every well-formed CRLF header block made of a request line, N
regular header lines (N ≥ 0) and a terminating empty CRLF line, the header
translation of http_request produces a header list of exactly N + 3 entries
whose entries at indices 0, 1 and 2 are :method, :path and :scheme in that
order, where the :method value is the bytes before the first space of the
request line, the :path value is the bytes between the first space and the
last space of the request line, and the :scheme value is "https" when the
connection uses transport-layer encryption and "http" otherwise. -/
theorem c1_translation_shape (ssl : Bool) (req : List Nat)
    (hdrs : List (List Nat)) (hreq : goodReqB req = true)
    (hh : ∀ h ∈ hdrs, goodHdrB h = true) :
    ∃ es aidx,
      translateHeaders ssl (mkBlock req hdrs) = Except.ok (es, aidx) ∧
      es.length = hdrs.length + 3 ∧
      es.getD 0 ⟨[], []⟩ = ⟨methodB, reqMethod req⟩ ∧
      es.getD 1 ⟨[], []⟩ = ⟨pathB, reqPath req⟩ ∧
      es.getD 2 ⟨[], []⟩ = ⟨schemeB, if ssl then httpsB else httpB⟩ := by
  rw [translateHeaders_mkBlock ssl req hdrs hreq hh]
  by_cases hc : lastHostIdx hdrs 3 ≠ 0 ∧ lastHostIdx hdrs 3 ≠ 3
  · rw [if_pos hc]
    have hb := lastHostIdx_bound hdrs 3
    have hlt : lastHostIdx hdrs 3 - 3 < (hdrs.map lineEntry).length := by
      rcases hb with hz | ⟨h1, h2⟩
      · exact absurd hz hc.1
      · simp only [List.length_map]
        omega
    refine ⟨_, _, rfl, ?_, ?_, ?_, ?_⟩
    · show (rotateAuthority (preList ssl req hdrs) (lastHostIdx hdrs 3)).length
          = hdrs.length + 3
      unfold preList
      rw [rotateAuthority_length _ _ _ _ _ hlt]
      simp
    · unfold preList rotateAuthority
      rfl
    · unfold preList rotateAuthority
      rfl
    · unfold preList rotateAuthority
      rfl
  · rw [if_neg hc]
    refine ⟨_, _, rfl, ?_, rfl, rfl, rfl⟩
    simp [preList]

def c1req : List Nat := [71, 69, 84, 32, 47, 32, 72, 84, 84, 80, 47, 49, 46, 49]

def c1hdrs : List (List Nat) := [[65, 99, 99, 101, 112, 116, 58, 32, 120]]

/-- Witness for C1 at the block "GET / HTTP/1.1" + "Accept: x" + empty line
on an encrypted connection. -/
theorem c1_translation_shape_witness :
    goodReqB c1req = true ∧
    (∃ es aidx,
      translateHeaders true (mkBlock c1req c1hdrs) = Except.ok (es, aidx) ∧
      es.length = c1hdrs.length + 3 ∧
      es.getD 0 ⟨[], []⟩ = ⟨methodB, reqMethod c1req⟩ ∧
      es.getD 1 ⟨[], []⟩ = ⟨pathB, reqPath c1req⟩ ∧
      es.getD 2 ⟨[], []⟩ = ⟨schemeB, httpsB⟩) :=
  ⟨by decide, c1_translation_shape true c1req c1hdrs (by decide) (by decide)⟩

/-- C2: for every well-formed header block containing a host header at
translated position k with k > 3, the translated header list has that entry,
renamed :authority, at index 3; the entries that sat at indices 3 through
k - 1 are shifted back by exactly one slot with their relative order
preserved, and all other entries are unchanged; hence the list handed to the
request-submission primitive has the three synthesized pseudo-headers first
and :authority at index 3. -/
theorem c2_authority_rotation (ssl : Bool) (req : List Nat)
    (hdrs : List (List Nat)) (k : Nat) (hreq : goodReqB req = true)
    (hh : ∀ h ∈ hdrs, goodHdrB h = true)
    (hk : lastHostIdx hdrs 3 = k) (hk3 : 3 < k) :
    ∃ es, translateHeaders ssl (mkBlock req hdrs) = Except.ok (es, k) ∧
      es.length = (preList ssl req hdrs).length ∧
      ((preList ssl req hdrs).getD k ⟨[], []⟩).name = authorityB ∧
      es.getD 3 ⟨[], []⟩ = (preList ssl req hdrs).getD k ⟨[], []⟩ ∧
      (es.getD 3 ⟨[], []⟩).name = authorityB ∧
      (∀ j, j < 3 →
        es.getD j ⟨[], []⟩ = (preList ssl req hdrs).getD j ⟨[], []⟩) ∧
      (∀ j, 3 ≤ j → j < k → es.getD (j + 1) ⟨[], []⟩ =
        (preList ssl req hdrs).getD j ⟨[], []⟩) ∧
      (∀ j, k < j → j < (preList ssl req hdrs).length →
        es.getD j ⟨[], []⟩ = (preList ssl req hdrs).getD j ⟨[], []⟩) := by
  subst hk
  have hc : lastHostIdx hdrs 3 ≠ 0 ∧ lastHostIdx hdrs 3 ≠ 3 :=
    ⟨by omega, by omega⟩
  have hb := lastHostIdx_bound hdrs 3
  have hup : lastHostIdx hdrs 3 < 3 + hdrs.length := by
    rcases hb with hz | ⟨h1, h2⟩
    · exact absurd hz hc.1
    · omega
  have hlt : lastHostIdx hdrs 3 - 3 < (hdrs.map lineEntry).length := by
    simp only [List.length_map]
    omega
  obtain ⟨hostLine, hget, hhost⟩ := lastHostIdx_host hdrs 3 hc.1
  have hpre : (preList ssl req hdrs).getD (lastHostIdx hdrs 3) ⟨[], []⟩ =
      lineEntry hostLine := by
    rw [show lastHostIdx hdrs 3 = (lastHostIdx hdrs 3 - 3) + 3 from by omega]
    unfold preList
    rw [getD_cons3]
    simp only [List.getD, List.get?_eq_getElem?, List.getElem?_map, hget,
      Option.map_some', Option.getD_some]
  have hname : ((preList ssl req hdrs).getD (lastHostIdx hdrs 3)
      ⟨[], []⟩).name = authorityB := by
    rw [hpre]
    exact lineEntry_host_name hostLine hhost
  rw [translateHeaders_mkBlock ssl req hdrs hreq hh, if_pos hc]
  have hcore : rotateAuthority (preList ssl req hdrs) (lastHostIdx hdrs 3) =
      ⟨methodB, reqMethod req⟩ :: ⟨pathB, reqPath req⟩ ::
      ⟨schemeB, if ssl then httpsB else httpB⟩ ::
      (preList ssl req hdrs).getD (lastHostIdx hdrs 3) ⟨[], []⟩ ::
      (hdrs.map lineEntry).eraseIdx (lastHostIdx hdrs 3 - 3) := by
    unfold preList
    rw [rotateAuthority_core]
  refine ⟨_, rfl, ?_, hname, ?_, ?_, ?_, ?_, ?_⟩
  · have hlt2 : lastHostIdx hdrs 3 - 3 < hdrs.length := by simpa using hlt
    rw [hcore]
    simp only [List.length_cons, preList, List.length_map, List.length_eraseIdx]
    rw [if_pos hlt2]
    omega
  · rw [hcore]
    rfl
  · rw [hcore]
    show ((preList ssl req hdrs).getD (lastHostIdx hdrs 3) ⟨[], []⟩).name =
      authorityB
    exact hname
  · intro j hj
    rw [hcore]
    interval_cases j <;> rfl
  · intro j hj3 hjk
    obtain ⟨m, rfl⟩ : ∃ m, j = m + 3 := ⟨j - 3, by omega⟩
    rw [hcore, show m + 3 + 1 = m + 4 from by omega, getD_cons4,
      getD_eraseIdx_lt _ _ _ _ (by omega)]
    show (hdrs.map lineEntry).getD m ⟨[], []⟩ =
      (preList ssl req hdrs).getD (m + 3) ⟨[], []⟩
    unfold preList
    rw [getD_cons3]
  · intro j hjk hjlen
    obtain ⟨m, rfl⟩ : ∃ m, j = m + 4 := ⟨j - 4, by omega⟩
    rw [hcore, getD_cons4, getD_eraseIdx_ge _ _ _ _ (by omega)]
    show (hdrs.map lineEntry).getD (m + 1) ⟨[], []⟩ =
      (preList ssl req hdrs).getD (m + 4) ⟨[], []⟩
    unfold preList
    rw [show m + 4 = (m + 1) + 3 from by omega, getD_cons3]

def c2req : List Nat := [71, 69, 84, 32, 47, 32, 72, 84, 84, 80, 47, 49, 46, 49]

def c2hdrs : List (List Nat) :=
  [[65, 99, 99, 101, 112, 116, 58, 32, 120], [72, 111, 115, 116, 58, 32, 101]]

/-- Witness for C2 at the block "GET / HTTP/1.1" + "Accept: x" + "Host: e" +
empty line: the host header sits at translated position 4. -/
theorem c2_authority_rotation_witness :
    lastHostIdx c2hdrs 3 = 4 ∧
    (∃ es, translateHeaders true (mkBlock c2req c2hdrs) = Except.ok (es, 4) ∧
      es.length = (preList true c2req c2hdrs).length ∧
      ((preList true c2req c2hdrs).getD 4 ⟨[], []⟩).name = authorityB ∧
      es.getD 3 ⟨[], []⟩ = (preList true c2req c2hdrs).getD 4 ⟨[], []⟩ ∧
      (es.getD 3 ⟨[], []⟩).name = authorityB ∧
      (∀ j, j < 3 →
        es.getD j ⟨[], []⟩ = (preList true c2req c2hdrs).getD j ⟨[], []⟩) ∧
      (∀ j, 3 ≤ j → j < 4 → es.getD (j + 1) ⟨[], []⟩ =
        (preList true c2req c2hdrs).getD j ⟨[], []⟩) ∧
      (∀ j, 4 < j → j < (preList true c2req c2hdrs).length →
        es.getD j ⟨[], []⟩ = (preList true c2req c2hdrs).getD j ⟨[], []⟩)) :=
  ⟨by decide,
   c2_authority_rotation true c2req c2hdrs 4 (by decide) (by decide)
     (by decide) (by decide)⟩

def c3input : List Nat :=
  [71, 69, 84, 32, 47, 105, 110, 100, 101, 120, 46, 104, 116, 109, 108, 32,
   72, 84, 84, 80, 47, 49, 46, 49, 13, 10,
   72, 111, 115, 116, 58, 32, 101, 120, 97, 109, 112, 108, 101, 46, 99, 111,
   109, 13, 10,
   65, 99, 99, 101, 112, 116, 58, 32, 42, 47, 42, 13, 10]

def c3inputTerm : List Nat := c3input ++ [13, 10]

def c3four : List HeaderEntry :=
  [⟨methodB, [71, 69, 84]⟩,
   ⟨pathB, [47, 105, 110, 100, 101, 120, 46, 104, 116, 109, 108]⟩,
   ⟨schemeB, httpsB⟩,
   ⟨authorityB, [101, 120, 97, 109, 112, 108, 101, 46, 99, 111, 109]⟩]

def c3five : List HeaderEntry :=
  c3four ++ [⟨[65, 99, 99, 101, 112, 116], [42, 47, 42]⟩]

/-- C3 counterexample: on the exact input byte block of the claim, which has
no terminating empty CRLF line ("GET /index.html HTTP/1.1", "Host:
example.com", "Accept: x2a/x2a", each CRLF-terminated), translation over an
encrypted connection produces the four-entry list that stops at :authority:
the line count yields room for one regular header only, so the Accept header
is dropped and the claimed five-entry list is not produced. -/
theorem c3_example_counterexample :
    translateHeaders true c3input = Except.ok (c3four, 3) ∧ c3four ≠ c3five :=
  ⟨rfl, by decide⟩

/-- C3 amended: with the terminating empty CRLF line appended to the block,
translation over an encrypted connection produces exactly the claimed
five-entry list, :method GET, :path /index.html, :scheme https, :authority
example.com, Accept x2a/x2a, in that order. -/
theorem c3_example_amended :
    translateHeaders true c3inputTerm = Except.ok (c3five, 3) := rfl

lemma lineJoin_append (a b : List (List Nat)) :
    lineJoin (a ++ b) = lineJoin a ++ lineJoin b := by
  induction a with
  | nil => simp [lineJoin]
  | cons h t ih => simp [lineJoin, ih]

lemma translateHeaders_mkBlock_gen (ssl : Bool) (req : List Nat)
    (hdrs : List (List Nat)) (hreq : goodReqB req = true)
    (hLF : ∀ h ∈ hdrs, hasByte LFb h = false) :
    translateHeaders ssl (mkBlock req hdrs) =
      match parseLoop hdrs.length 3
          (CRb :: LFb :: (lineJoin hdrs ++ [CRb, LFb])) with
      | Except.error e => Except.error e
      | Except.ok (es, aidx) =>
        if aidx ≠ 0 ∧ aidx ≠ 3 then
          Except.ok (rotateAuthority (⟨methodB, reqMethod req⟩ ::
            ⟨pathB, reqPath req⟩ ::
            ⟨schemeB, if ssl then httpsB else httpB⟩ :: es) aidx, aidx)
        else
          Except.ok (⟨methodB, reqMethod req⟩ :: ⟨pathB, reqPath req⟩ ::
            ⟨schemeB, if ssl then httpsB else httpB⟩ :: es, aidx) := by
  obtain ⟨hCR, hLFreq, m, hm, hm0, j, hj, hj0⟩ := goodReqB_spec req hreq
  have hcount : countHeaders (mkBlock req hdrs) = hdrs.length + 2 :=
    countHeaders_mkBlock req hdrs hLFreq hLF
  have hfirst : firstIdx CRb (mkBlock req hdrs) = some req.length := by
    unfold mkBlock
    exact firstIdx_append_of_notIn CRb req _ hCR
  have htake : (mkBlock req hdrs).take req.length = req := by
    unfold mkBlock
    exact List.take_left req _
  have hdrop : (mkBlock req hdrs).drop req.length =
      CRb :: LFb :: (lineJoin hdrs ++ [CRb, LFb]) := by
    unfold mkBlock
    exact List.drop_left req _
  unfold translateHeaders
  simp only [hcount, hfirst, htake, hdrop, hm, hj]
  rw [if_neg (show ¬hdrs.length + 2 < 2 from by omega), if_neg hm0, if_neg hj0]
  rw [show hdrs.length + 2 + 1 - 3 = hdrs.length from by omega]
  rcases hres : parseLoop hdrs.length 3
      (CRb :: LFb :: (lineJoin hdrs ++ [CRb, LFb])) with e | ⟨es, aidx⟩
  · rfl
  · simp only [reqMethod, reqPath, hm, hj]

/-- C8: a header block whose request line cannot be split into method and
path fails translation with the malformed-request condition (no space at
all, method empty, no second space for the path, or empty path), and a
well-formed block containing a continuation-style header line, one starting
with a space or tab, also fails; the failure result carries no header list,
matching the C code freeing the partially built array at the fail label. -/
theorem c8_malformed_request_failures :
    (∀ ssl mem, firstIdx SPb (firstLine mem) = none →
      translateHeaders ssl mem = Except.error HErr.malformedRequest) ∧
    (∀ ssl mem, firstIdx SPb (firstLine mem) = some 0 →
      translateHeaders ssl mem = Except.error HErr.malformedRequest) ∧
    (∀ ssl mem m, firstIdx SPb (firstLine mem) = some m →
      lastIdxOf SPb ((firstLine mem).drop (m + 1)) = none →
      translateHeaders ssl mem = Except.error HErr.malformedRequest) ∧
    (∀ ssl mem m, firstIdx SPb (firstLine mem) = some m →
      lastIdxOf SPb ((firstLine mem).drop (m + 1)) = some 0 →
      translateHeaders ssl mem = Except.error HErr.malformedRequest) ∧
    (∀ ssl req gs h more, goodReqB req = true →
      (∀ g ∈ gs, goodHdrB g = true) →
      hasByte LFb h = false →
      (∀ g ∈ more, hasByte LFb g = false) →
      (h.headD 0 = SPb ∨ h.headD 0 = TABb) →
      translateHeaders ssl (mkBlock req (gs ++ h :: more)) =
        Except.error HErr.malformedRequest) := by
  have hline : ∀ mem le, firstIdx CRb mem = some le →
      firstLine mem = mem.take le := by
    intro mem le hle
    unfold firstLine
    rw [hle]
  refine ⟨?_, ?_, ?_, ?_, ?_⟩
  · intro ssl mem hsp
    unfold translateHeaders
    by_cases hcnt : countHeaders mem < 2
    · rw [if_pos hcnt]
    · rw [if_neg hcnt]
      rcases hle : firstIdx CRb mem with - | le
      · rfl
      · rw [hline mem le hle] at hsp
        simp only [hsp]
  · intro ssl mem hsp
    unfold translateHeaders
    by_cases hcnt : countHeaders mem < 2
    · rw [if_pos hcnt]
    · rw [if_neg hcnt]
      rcases hle : firstIdx CRb mem with - | le
      · rfl
      · rw [hline mem le hle] at hsp
        simp only [hsp]
        simp
  · intro ssl mem m hsp hlast
    unfold translateHeaders
    by_cases hcnt : countHeaders mem < 2
    · rw [if_pos hcnt]
    · rw [if_neg hcnt]
      rcases hle : firstIdx CRb mem with - | le
      · rfl
      · rw [hline mem le hle] at hsp hlast
        simp only [hsp, hlast]
        by_cases hm0 : m = 0
        · rw [if_pos hm0]
        · rw [if_neg hm0]
  · intro ssl mem m hsp hlast
    unfold translateHeaders
    by_cases hcnt : countHeaders mem < 2
    · rw [if_pos hcnt]
    · rw [if_neg hcnt]
      rcases hle : firstIdx CRb mem with - | le
      · rfl
      · rw [hline mem le hle] at hsp hlast
        simp only [hsp, hlast]
        by_cases hm0 : m = 0
        · rw [if_pos hm0]
        · rw [if_neg hm0]
          simp
  · intro ssl req gs h more hreq hgs hhLF hmoreLF hws
    have hLFall : ∀ g ∈ gs ++ h :: more, hasByte LFb g = false := by
      intro g hg
      rcases List.mem_append.mp hg with hg | hg
      · exact (goodHdrB_spec g (hgs g hg)).2.1
      · rcases List.mem_cons.mp hg with rfl | hg
        · exact hhLF
        · exact hmoreLF g hg
    rw [translateHeaders_mkBlock_gen ssl req (gs ++ h :: more) hreq hLFall]
    have hfuel : (gs ++ h :: more).length = gs.length + (more.length + 1) := by
      simp
    rw [hfuel, lineJoin_append, List.append_assoc]
    rw [parseLoop_goodRun gs (more.length + 1) 3 (lineJoin (h :: more) ++ [CRb, LFb]) hgs]
    have hne : h ≠ [] := by
      intro hnil
      subst hnil
      rcases hws with hws | hws <;> exact absurd hws (by decide)
    have hhead : ((lineJoin (h :: more) ++ [CRb, LFb]).headD 0) = h.headD 0 := by
      show ((h ++ CRb :: LFb :: lineJoin more) ++ [CRb, LFb]).headD 0 = h.headD 0
      cases h with
      | nil => exact absurd rfl hne
      | cons c t => rfl
    rw [parseLoop_contFail (more.length) (3 + gs.length)
      (CRb :: LFb :: (lineJoin (h :: more) ++ [CRb, LFb]))
      (by
        simp only [List.drop_succ_cons, List.drop_zero]
        rw [hhead]
        exact hws)]

def c8noSpace : List Nat := [71, 69, 84, 88, 13, 10, 13, 10]

def c8contReq : List Nat := [71, 69, 84, 32, 47, 32, 72, 84, 84, 80, 47, 49, 46, 49]

def c8contLine : List Nat := [32, 88, 58, 32, 121]

/-- Witness for C8: the block "GETX" + empty line has no space in its request
line and fails; the block "GET / HTTP/1.1" + " X: y" + empty line has a
continuation-style header line and fails. -/
theorem c8_malformed_request_failures_witness :
    firstIdx SPb (firstLine c8noSpace) = none ∧
    translateHeaders true c8noSpace = Except.error HErr.malformedRequest ∧
    translateHeaders true (mkBlock c8contReq ([] ++ c8contLine :: [])) =
      Except.error HErr.malformedRequest :=
  ⟨by decide,
   c8_malformed_request_failures.1 true c8noSpace (by decide),
   c8_malformed_request_failures.2.2.2.2 true c8contReq [] c8contLine []
     (by decide) (by decide) (by decide) (by decide) (by decide)⟩

/-- C4: for every request whose method is an upload method (POST, POST form,
POST mime, or PUT), the request driver part of http_request takes the branch
that never calls quiche_h3_send_request, sets the upload-remaining counter
to the declared content length, or to -1 when no length was declared, and
then reads the stream identifier variable before it has been assigned any
value. -/
theorem c4_upload_branch_skips_submission (ssl : Bool) (httpreq : HttpReq)
    (infilesize sid : Int) (mem : List Nat) (o : ReqOutcome)
    (hup : isUploadMethod httpreq = true)
    (hok : http_request ssl httpreq infilesize sid mem = Except.ok o) :
    o.submitted = false ∧
    o.uploadLeft = some (if infilesize ≠ -1 then infilesize else -1) ∧
    o.readsUninitStreamId = true ∧
    o.streamId = none := by
  unfold http_request at hok
  split at hok
  · exact absurd hok (by simp)
  · next es aidx heq =>
    injection hok with hok
    subst hok
    unfold finishRequest
    rw [if_pos hup]
    exact ⟨rfl, rfl, rfl, rfl⟩

def c4block : List Nat :=
  [71, 69, 84, 32, 47, 32, 72, 84, 84, 80, 47, 49, 46, 49, 13, 10, 13, 10]

def c4out : ReqOutcome :=
  ⟨[⟨methodB, [71, 69, 84]⟩, ⟨pathB, [47]⟩, ⟨schemeB, httpsB⟩],
   false, false, some 5, true, none⟩

/-- Witness for C4: a PUT request over the block "GET / HTTP/1.1" + empty
line with declared content length 5 skips submission, sets the
upload-remaining counter to 5, and reads the unassigned stream id. -/
theorem c4_upload_branch_skips_submission_witness :
    isUploadMethod HttpReq.HTTPREQ_PUT = true ∧
    http_request true HttpReq.HTTPREQ_PUT 5 0 c4block = Except.ok c4out ∧
    (c4out.submitted = false ∧
     c4out.uploadLeft = some (if (5 : Int) ≠ -1 then 5 else -1) ∧
     c4out.readsUninitStreamId = true ∧
     c4out.streamId = none) :=
  ⟨by decide, rfl,
   c4_upload_branch_skips_submission true HttpReq.HTTPREQ_PUT 5 0 c4block
     c4out (by decide) rfl⟩

/-- C9: for every translated header list submitted with a non-upload method,
a cumulative name-plus-value byte length of exactly 60000 emits no size
warning, a length of 60001 or more emits the non-fatal warning, and in both
cases the request proceeds to submission with the entries unchanged. -/
theorem c9_size_warning_threshold (entries : List HeaderEntry)
    (httpreq : HttpReq) (infilesize sid : Int)
    (hnup : isUploadMethod httpreq = false) :
    (cumLen entries = 60000 →
      (finishRequest entries httpreq infilesize sid).warned = false) ∧
    (60001 ≤ cumLen entries →
      (finishRequest entries httpreq infilesize sid).warned = true) ∧
    (finishRequest entries httpreq infilesize sid).submitted = true ∧
    (finishRequest entries httpreq infilesize sid).entries = entries := by
  unfold finishRequest
  rw [if_neg (show ¬isUploadMethod httpreq = true from by rw [hnup]; simp)]
  refine ⟨?_, ?_, rfl, rfl⟩
  · intro h
    show decide (cumLen entries > 60000) = false
    rw [h]
    decide
  · intro h
    show decide (cumLen entries > 60000) = true
    rw [decide_eq_true_iff]
    omega

def c9small : List HeaderEntry :=
  [⟨List.replicate 30000 97, List.replicate 30000 98⟩]

def c9big : List HeaderEntry :=
  [⟨List.replicate 30000 97, List.replicate 30001 98⟩]

/-- Witness for C9: one entry with 30000-byte name and 30000-byte value sits
exactly at the ceiling and draws no warning; growing the value by one byte
draws the warning; both proceed to submission. -/
theorem c9_size_warning_threshold_witness :
    isUploadMethod HttpReq.HTTPREQ_GET = false ∧
    cumLen c9small = 60000 ∧
    60001 ≤ cumLen c9big ∧
    (finishRequest c9small HttpReq.HTTPREQ_GET (-1) 0).warned = false ∧
    (finishRequest c9big HttpReq.HTTPREQ_GET (-1) 0).warned = true ∧
    (finishRequest c9small HttpReq.HTTPREQ_GET (-1) 0).submitted = true := by
  have hs : ∀ nm v : List Nat, cumLen [⟨nm, v⟩] = nm.length + v.length := by
    intro nm v
    simp [cumLen]
  have h1 : cumLen c9small = 60000 := by
    show cumLen [⟨List.replicate 30000 97, List.replicate 30000 98⟩] = 60000
    rw [hs, List.length_replicate, List.length_replicate]
  have h2 : 60001 ≤ cumLen c9big := by
    show 60001 ≤ cumLen [⟨List.replicate 30000 97, List.replicate 30001 98⟩]
    rw [hs, List.length_replicate, List.length_replicate]
  exact ⟨by decide, h1, h2,
    (c9_size_warning_threshold c9small HttpReq.HTTPREQ_GET (-1) 0
      (by decide)).1 h1,
    ((c9_size_warning_threshold c9big HttpReq.HTTPREQ_GET (-1) 0
      (by decide)).2).1 h2,
    ((c9_size_warning_threshold c9small HttpReq.HTTPREQ_GET (-1) 0
      (by decide)).2).2.1⟩

/-- C5: a single invocation of the ingress pump on K queued datagrams
followed by a would-block signal feeds all K datagrams to the engine receive
path in order and returns success (provided the engine accepts each); it
also returns success when the engine reports nothing more to process, and it
returns a receive failure at the first other socket error or other negative
engine result, stopping there. -/
theorem c5_ingress_pump_drains (eng : Nat → EngRecvRes) (ds : List (List Nat))
    (h : ∀ t, t < ds.length → eng t = EngRecvRes.engOk) :
    process_ingress eng 0 (ds.map SockEv.dgram ++ [SockEv.wouldBlock]) =
      (true, ds) ∧
    (∀ rest, process_ingress eng 0
        (ds.map SockEv.dgram ++ SockEv.sockErr :: rest) = (false, ds)) ∧
    (∀ d rest, eng ds.length = EngRecvRes.engDone →
      process_ingress eng 0 (ds.map SockEv.dgram ++ SockEv.dgram d :: rest) =
        (true, ds ++ [d])) ∧
    (∀ d rest, eng ds.length = EngRecvRes.engErr →
      process_ingress eng 0 (ds.map SockEv.dgram ++ SockEv.dgram d :: rest) =
        (false, ds ++ [d])) := by
  have h0 : ∀ t, t < ds.length → eng (0 + t) = EngRecvRes.engOk := by
    intro t ht
    simpa using h t ht
  refine ⟨?_, ?_, ?_, ?_⟩
  · rw [process_ingress_okRun eng 0 ds [SockEv.wouldBlock] h0]
    simp [process_ingress]
  · intro rest
    rw [process_ingress_okRun eng 0 ds (SockEv.sockErr :: rest) h0]
    simp [process_ingress]
  · intro d rest hdone
    rw [process_ingress_okRun eng 0 ds (SockEv.dgram d :: rest) h0]
    rw [process_ingress.eq_def]
    simp only [Nat.zero_add] at hdone ⊢
    simp [hdone]
  · intro d rest herr
    rw [process_ingress_okRun eng 0 ds (SockEv.dgram d :: rest) h0]
    rw [process_ingress.eq_def]
    simp only [Nat.zero_add] at herr ⊢
    simp [herr]

/-- Witness for C5: two queued datagrams then would-block, with an engine
that accepts everything, are both fed in order with success. -/
theorem c5_ingress_pump_drains_witness :
    process_ingress (fun _ => EngRecvRes.engOk) 0
      (([[1], [2]] : List (List Nat)).map SockEv.dgram ++
        [SockEv.wouldBlock]) = (true, [[1], [2]]) :=
  (c5_ingress_pump_drains (fun _ => EngRecvRes.engOk) [[1], [2]]
    (by intro t ht; rfl)).1

/-- C6: every recv invocation that returns a byte count returns the result
of the most recent data event processed in its poll loop, or the direct
transport-level stream read result when the engine yields no events, as
when no HTTP/3 context exists yet; a non-positive body-read result is
returned as is under CURLE_OK, never turned into a receive error. -/
theorem c6_recv_returns_last_data (r : Int) (events : List H3Ev) :
    (h3_stream_recv true (some r) events).1 =
      RecvRes.okBytes ((lastData events).getD r) ∧
    (h3_stream_recv true (some r) []).1 = RecvRes.okBytes r ∧
    (h3_stream_recv true (some r) events).1 ≠ RecvRes.recvError := by
  unfold h3_stream_recv
  simp [pollLoop_eq, lastData]

def c7block : List Nat :=
  [71, 69, 84, 32, 47, 32, 72, 84, 84, 80, 47, 49, 46, 49, 13, 10, 13, 10]

/-- C7 counterexample: a first send invocation (no HTTP/3 context yet) that
successfully translates and submits this header block returns its byte count
having run neither an ingress nor an egress pump, and a recv invocation
never runs an egress pump; so neither call is bracketed by an ingress pump
before and an egress pump after, contrary to the claim. -/
theorem c7_pump_bracketing_counterexample :
    (h3_stream_send true HttpReq.HTTPREQ_GET (-1) 0 false c7block 0
      true).acts = [PumpAct.httpReq] ∧
    PumpAct.egress ∉ (h3_stream_send true HttpReq.HTTPREQ_GET (-1) 0 false
      c7block 0 true).acts ∧
    PumpAct.ingress ∉ (h3_stream_send true HttpReq.HTTPREQ_GET (-1) 0 false
      c7block 0 true).acts ∧
    PumpAct.egress ∉ (h3_stream_recv true (some 3) []).2 :=
  ⟨rfl, by decide, by decide, by decide⟩

/-- C7 amended: after establishment, every recv invocation runs the ingress
pump first and never an egress pump; send invocations never run an ingress
pump; a body-write send (HTTP/3 context present) whose stream write succeeds
and whose egress flush succeeds runs exactly the stream write followed by
the egress pump and returns the engine byte count; the first send, which
performs header translation and request submission, runs no pump at all and
returns the full buffer length as its byte count. -/
theorem c7_amended_pump_order (ingressOk : Bool) (direct : Option Int)
    (events : List H3Ev) (ssl : Bool) (httpreq : HttpReq)
    (infilesize sid : Int) (mem : List Nat) (ssr : Int) (egressOk : Bool)
    (hssr : 0 ≤ ssr) :
    (h3_stream_recv ingressOk direct events).2.headD PumpAct.egress =
      PumpAct.ingress ∧
    PumpAct.egress ∉ (h3_stream_recv ingressOk direct events).2 ∧
    PumpAct.ingress ∉ (h3_stream_send ssl httpreq infilesize sid false mem
      ssr egressOk).acts ∧
    PumpAct.ingress ∉ (h3_stream_send ssl httpreq infilesize sid true mem
      ssr egressOk).acts ∧
    (h3_stream_send ssl httpreq infilesize sid false mem ssr egressOk).acts =
      [PumpAct.httpReq] ∧
    (egressOk = true →
      (h3_stream_send ssl httpreq infilesize sid true mem ssr
          egressOk).acts = [PumpAct.streamSend, PumpAct.egress] ∧
      (h3_stream_send ssl httpreq infilesize sid true mem ssr
          egressOk).result = SendRes.okBytes ssr) := by
  have hrecv : (h3_stream_recv ingressOk direct events).2.headD PumpAct.egress
      = PumpAct.ingress ∧
      PumpAct.egress ∉ (h3_stream_recv ingressOk direct events).2 := by
    unfold h3_stream_recv
    cases ingressOk
    · simp
    · cases direct <;> simp
  have hfirst : (h3_stream_send ssl httpreq infilesize sid false mem ssr
      egressOk).acts = [PumpAct.httpReq] := by
    unfold h3_stream_send
    rcases hreq : http_request ssl httpreq infilesize sid mem with e | o <;>
      simp [hreq]
  have hbody : (h3_stream_send ssl httpreq infilesize sid true mem ssr
      egressOk).acts = if egressOk = false then
        [PumpAct.streamSend, PumpAct.egress]
      else [PumpAct.streamSend, PumpAct.egress] := by
    unfold h3_stream_send
    rw [if_neg (by simp), if_neg (show ¬ssr < 0 from by omega)]
    cases egressOk <;> simp
  refine ⟨hrecv.1, hrecv.2, ?_, ?_, hfirst, ?_⟩
  · rw [hfirst]
    simp
  · rw [hbody]
    cases egressOk <;> simp
  · intro hegress
    subst hegress
    unfold h3_stream_send
    rw [if_neg (by simp), if_neg (show ¬ssr < 0 from by omega),
      if_neg (by simp)]
    exact ⟨rfl, rfl⟩

/-- Witness for C7 amended at concrete inputs: a recv with one data event
and a successful body-write send of three bytes. -/
theorem c7_amended_pump_order_witness :
    (h3_stream_recv true (some 2) [H3Ev.dataEv 2]).2.headD PumpAct.egress =
      PumpAct.ingress ∧
    PumpAct.egress ∉ (h3_stream_recv true (some 2) [H3Ev.dataEv 2]).2 ∧
    PumpAct.ingress ∉ (h3_stream_send true HttpReq.HTTPREQ_GET (-1) 0 false
      [1, 2, 3] 2 true).acts ∧
    PumpAct.ingress ∉ (h3_stream_send true HttpReq.HTTPREQ_GET (-1) 0 true
      [1, 2, 3] 2 true).acts ∧
    (h3_stream_send true HttpReq.HTTPREQ_GET (-1) 0 false [1, 2, 3] 2
      true).acts = [PumpAct.httpReq] ∧
    (true = true →
      (h3_stream_send true HttpReq.HTTPREQ_GET (-1) 0 true [1, 2, 3] 2
        true).acts = [PumpAct.streamSend, PumpAct.egress] ∧
      (h3_stream_send true HttpReq.HTTPREQ_GET (-1) 0 true [1, 2, 3] 2
        true).result = SendRes.okBytes 2) :=
  c7_amended_pump_order true (some 2) [H3Ev.dataEv 2] true
    HttpReq.HTTPREQ_GET (-1) 0 [1, 2, 3] 2 true (by decide)

/-- C10: every send invocation made while an HTTP/3 context already exists
writes the buffer to stream 0 via the transport-level stream send primitive
with the finished flag set to true, whatever the engine result or the
egress outcome: every body write marks the stream finished to the QUIC
engine rather than leaving it open for further data writes. -/
theorem c10_body_write_marks_finished (ssl : Bool) (httpreq : HttpReq)
    (infilesize sid : Int) (mem : List Nat) (ssr : Int) (egressOk : Bool) :
    (h3_stream_send ssl httpreq infilesize sid true mem ssr egressOk).writes
      = [(0, mem.length, true)] := by
  unfold h3_stream_send
  rw [if_neg (by simp)]
  by_cases hs : ssr < 0
  · rw [if_pos hs]
  · rw [if_neg hs]
    cases egressOk <;> simp
